import Mathlib

/-!
Verification of the ETL pipeline (Extract → Transform → Load) of the
invoice-processing repository.  The Python sources are shallowly embedded:

* `PyVal` models the dynamically-typed JSON-like values that flow out of
  `json.loads` and into `Transform` (str / int / float / bool / None /
  list / dict).  Python floats are modelled as exact rationals (`Rat`);
  every numeric value reachable in the claims has an exact finite decimal
  representation, so nothing is lost.
* `Transform.clean_text`, `Transform.to_decimal`, `Transform.clean_item`,
  `Transform.clean_line_items`, `Transform.clean_document` and
  `Transform.transform` embed `src/Transform/Transform.py`.  Fallible
  code (a Python function that can raise) returns `Except String _`.
* `Extract.extractFirstObject` embeds the brace-depth scan of
  `src/Extract/Extract.py`; `jsonLoads` models `json.loads` on the JSON
  subset without escape sequences or exponents (sufficient for every
  string it is applied to here).
* `Load.loadDoc` / `Load.load` embed the keyed upsert of
  `src/Load/Load.py` over an explicit relational state `DB`;
  `Load.loadRun` makes the single-transaction commit at the end of
  `Load.load` explicit, with an error oracle standing for a failing
  `cursor.execute`.
-/

/-- Dynamically-typed Python/JSON value as produced by `json.loads` and
consumed by `Transform`.  Python floats are modelled as exact rationals. -/
inductive PyVal where
  | none : PyVal
  | bool : Bool → PyVal
  | int : Int → PyVal
  | float : Rat → PyVal
  | str : String → PyVal
  | list : List PyVal → PyVal
  | dict : List (String × PyVal) → PyVal

/-- Python truthiness test (`not x` in `_clean_text` / `_clean_line_items`):
`None`, `False`, zero, the empty string and empty containers are falsy. -/
def pyFalsy : PyVal → Bool
  | .none => true
  | .bool b => !b
  | .int n => n == 0
  | .float q => q == 0
  | .str s => s == ""
  | .list xs => xs.isEmpty
  | .dict kvs => kvs.isEmpty

/-- Python comparison `x == 'N/A'`: true exactly for the string "N/A"
(comparison of a non-string with a string is `False` in Python). -/
def isNA : PyVal → Bool
  | .str s => s == "N/A"
  | _ => false

/-- Whitespace class of Python's `str.strip` and the regex `\s` (the model
restricts to the ASCII whitespace characters; every input appearing in the
claims is ASCII). -/
def isPyWs (c : Char) : Bool :=
  c == ' ' || c == '\t' || c == '\n' || c == '\r' || c == '\x0b' || c == '\x0c'

/-- Model of Python `str.strip()`: drop whitespace from both ends. -/
def stripWs (l : List Char) : List Char :=
  List.rdropWhile isPyWs (List.dropWhile isPyWs l)

/-- Worker for `re.sub(r'\s+', ' ', ·)`: the flag records whether the
previous character was part of a whitespace run (in which case further
whitespace of the same run is dropped); the first character of each run is
replaced by a single space. -/
def subWsGo : Bool → List Char → List Char
  | _, [] => []
  | prevWs, c :: rest =>
    if isPyWs c then
      if prevWs then subWsGo true rest else ' ' :: subWsGo true rest
    else c :: subWsGo false rest

/-- Model of `re.sub(r'\s+', ' ', l)`: collapse every whitespace run to a
single space. -/
def subWsRuns (l : List Char) : List Char := subWsGo false l

/-- Decimal digit string to natural number. -/
def digitsVal (l : List Char) : Nat :=
  l.foldl (fun a c => a * 10 + (c.toNat - '0'.toNat)) 0

/-- Value of an integer part / fractional part digit pair. -/
def parseUnsigned (ip fp : List Char) : Rat :=
  (digitsVal ip : Rat) + (digitsVal fp : Rat) / ((10 : Rat) ^ fp.length)

/-- Model of `decimal.Decimal(string)` restricted to the alphabet that
survives `_to_decimal`'s character filter (digits, '.', '-'): an optional
leading minus sign, then digits with at most one decimal point and at
least one digit overall.  Anything else raises `InvalidOperation`,
modelled as `Option.none`. -/
def parseDecimalU (cs : List Char) : Option Rat :=
  let ip := cs.takeWhile Char.isDigit
  match cs.drop ip.length with
  | [] => if ip.isEmpty then Option.none else some (digitsVal ip : Rat)
  | '.' :: fr =>
    let fp := fr.takeWhile Char.isDigit
    if (fr.drop fp.length).isEmpty then
      if ip.isEmpty && fp.isEmpty then Option.none else some (parseUnsigned ip fp)
    else Option.none
  | _ => Option.none

/-- Signed decimal literal parse, see `parseDecimalU`. -/
def parseDecimal (cs : List Char) : Option Rat :=
  match cs with
  | '-' :: rest => (parseDecimalU rest).map (fun q => -q)
  | _ => parseDecimalU cs

/-- Character filter of `_to_decimal`: `re.sub(r'[^\d.,\-]', '', value)`
keeps digits, '.', ',' and '-'; the subsequent `.replace(',', '.')` turns
each comma into a period. -/
def cleanNumeric (s : String) : List Char :=
  ((s.toList.filter fun c => c.isDigit || c == '.' || c == ',' || c == '-').map
    fun c => if c == ',' then '.' else c)

namespace Transform

/-- Decimal rendering used to model `str()` of a Python float.  Exact for
integral floats (`str(3.0) = "3.0"`); non-integral rationals fall back to
the `Rat` rendering.  No claim depends on the fractional case: the only
floats whose string form matters in the claims are never fed to
`_clean_text`. -/
def floatStr (q : Rat) : String :=
  if q.den = 1 then toString q.num ++ ".0" else toString q

mutual

/-- Model of Python `str()` for the values of `PyVal` (scalar cases are
exact; container rendering models `repr`-style output without escape
handling, which no claim inspects beyond non-emptiness). -/
def pyStrOf : PyVal → String
  | .str s => s
  | .int n => toString n
  | .bool true => "True"
  | .bool false => "False"
  | .none => "None"
  | .float q => floatStr q
  | .list xs => "[" ++ pyStrList xs ++ "]"
  | .dict kvs => "\x7b" ++ pyStrDict kvs ++ "\x7d"

/-- Comma-separated rendering of list elements, see `pyStrOf`. -/
def pyStrList : List PyVal → String
  | [] => ""
  | [x] => pyStrOf x
  | x :: rest => pyStrOf x ++ ", " ++ pyStrList rest

/-- Comma-separated rendering of dict entries, see `pyStrOf`. -/
def pyStrDict : List (String × PyVal) → String
  | [] => ""
  | [(k, v)] => "'" ++ k ++ "': " ++ pyStrOf v
  | (k, v) :: rest => "'" ++ k ++ "': " ++ pyStrOf v ++ ", " ++ pyStrDict rest

end

/-- Embedding of `Transform._clean_text`:
`if not text or text == 'N/A': return 'N/A'` then
`re.sub(r'\s+', ' ', str(text).strip())`. -/
def clean_text (v : PyVal) : String :=
  if pyFalsy v || isNA v then "N/A"
  else String.mk (subWsRuns (stripWs (pyStrOf v).toList))

/-- Embedding of `Transform._to_decimal`.  The branch order mirrors the
source: `isinstance(value, (int, float, Decimal))` matches Python `bool`
values first (`bool` is a subclass of `int`), and for them
`Decimal(str(value))` is `Decimal('True')` / `Decimal('False')`, which
raises `InvalidOperation` outside the `try` block — hence the error
result.  The string branch is wrapped in `try/except` returning `0.0`,
modelled by `Option.getD 0`. -/
def to_decimal (v : PyVal) : Except String Rat :=
  match v with
  | .bool _ => .error "InvalidOperation"
  | .int n => .ok (n : Rat)
  | .float q => .ok q
  | .str s => .ok ((parseDecimal (cleanNumeric s)).getD 0)
  | _ => .ok 0

/-- Python `d.get(k, default)` on the association-list model of a dict. -/
def dictGet (kvs : List (String × PyVal)) (k : String) (d : PyVal) : PyVal :=
  (kvs.lookup k).getD d

/-- Embedding of the per-item body of `Transform._clean_line_items`:
builds `{'item': ..., 'quantity': ..., 'unit_price': ..., 'total': ...}`
with the alias fallbacks of the source; any `_to_decimal` error
propagates. -/
def clean_item (kvs : List (String × PyVal)) : Except String PyVal :=
  match to_decimal (dictGet kvs "quantity" (dictGet kvs "qty" (PyVal.int 0))) with
  | .error e => .error e
  | .ok q =>
    match to_decimal (dictGet kvs "unit_price" (dictGet kvs "price" (dictGet kvs "unit" (PyVal.int 0)))) with
    | .error e => .error e
    | .ok p =>
      match to_decimal (dictGet kvs "total" (dictGet kvs "amount" (PyVal.int 0))) with
      | .error e => .error e
      | .ok t =>
        Except.ok (PyVal.dict
          [("item", PyVal.str (clean_text (dictGet kvs "item" (dictGet kvs "description" (dictGet kvs "name" (PyVal.str "N/A")))))),
           ("quantity", PyVal.float q),
           ("unit_price", PyVal.float p),
           ("total", PyVal.float t)])

/-- Loop of `Transform._clean_line_items`: elements that are not dicts are
skipped (`continue`); dict elements are cleaned in order. -/
def cleanItemsGo : List PyVal → Except String (List PyVal)
  | [] => .ok []
  | x :: rest =>
    match x with
    | .dict kvs =>
      (match clean_item kvs with
       | .error e => .error e
       | .ok c =>
         match cleanItemsGo rest with
         | .error e => .error e
         | .ok cs => .ok (c :: cs))
    | _ => cleanItemsGo rest

/-- Embedding of `Transform._clean_line_items`: a non-list (or falsy)
`items` value yields `[]`; otherwise each dict element is cleaned.  (The
source's early return for an empty list coincides with the loop producing
`[]`.) -/
def clean_line_items (v : PyVal) : Except String PyVal :=
  match v with
  | .list items =>
    (match cleanItemsGo items with
     | .error e => .error e
     | .ok cs => .ok (.list cs))
  | _ => .ok (.list [])

/-- Embedding of `Transform._clean_document`: the canonical dict with the
nested `doc.get` alias fallbacks of the source. -/
def clean_document (kvs : List (String × PyVal)) : Except String PyVal :=
  match clean_line_items (dictGet kvs "line_items" (dictGet kvs "items" (PyVal.list []))) with
  | .error e => .error e
  | .ok li =>
    Except.ok (PyVal.dict
      [("document_id", PyVal.str (clean_text (dictGet kvs "document_id" (dictGet kvs "id" (dictGet kvs "number" (PyVal.str "N/A")))))),
       ("name", PyVal.str (clean_text (dictGet kvs "name" (dictGet kvs "contractor" (dictGet kvs "supplier" (dictGet kvs "client" (PyVal.str "N/A"))))))),
       ("description", PyVal.str (clean_text (dictGet kvs "description" (dictGet kvs "desc" (PyVal.str "N/A"))))),
       ("line_items", li)])

/-- Embedding of `Transform.transform`: cleans each document in input
order; a non-dict value makes `doc.get` raise `AttributeError`. -/
def transform : List (String × PyVal) → Except String (List (String × PyVal))
  | [] => .ok []
  | (f, v) :: rest =>
    match v with
    | PyVal.dict kvs =>
      (match clean_document kvs with
       | .error e => .error e
       | .ok d =>
         match transform rest with
         | .error e => .error e
         | .ok rest2 => .ok ((f, d) :: rest2))
    | _ => Except.error "AttributeError" 

/-- Spec-side formulation of the alias-resolution policy of §4.2: the
value of the first alias key present in the record wins; if no alias is
present the stated default applies. -/
def aliasResolve (kvs : List (String × PyVal)) : List String → PyVal → PyVal
  | [], d => d
  | k :: ks, d => (kvs.lookup k).getD (aliasResolve kvs ks d)

end Transform

namespace Extract

/-- Brace-depth scan of `Extract.extract_text_from_images` (lines 48–56):
`d` is the running `brace_count` before the current character; the span
ends at the `}` that brings the count back to zero; running out of text
with the count still positive yields nothing. -/
def scanSpan : List Char → Int → Option (List Char)
  | [], _ => Option.none
  | c :: rest, d =>
    if c = '{' then (scanSpan rest (d + 1)).map (fun s => c :: s)
    else if c = '}' then
      if d = 1 then some [c]
      else (scanSpan rest (d - 1)).map (fun s => c :: s)
    else (scanSpan rest d).map (fun s => c :: s)

/-- Model of `text.find('{')` followed by the brace-depth scan: skip
characters before the first `'{'`; with no `'{'` at all the result is
`none` (the source `continue`s). -/
def extractFirstObject : List Char → Option (List Char)
  | [] => Option.none
  | c :: rest => if c = '{' then scanSpan (c :: rest) 0 else extractFirstObject rest

end Extract

/-- Signed delta of the brace-depth counter for one character. -/
def braceDelta (c : Char) : Int := if c = '{' then 1 else if c = '}' then -1 else 0

/-- Total brace-depth change over a character list. -/
def depthSum (l : List Char) : Int := (l.map braceDelta).sum

/-- Spec-side notion of a balanced `\x7b...\x7d` span (§4.1 and glossary):
starts with `'{'`, the depth-counting scan returns to zero exactly at the
end, and stays positive on every proper non-empty prefix. -/
def BalancedSpan (s : List Char) : Prop :=
  s.head? = some '{' ∧ depthSum s = 0 ∧
    ∀ p ∈ s.inits, p ≠ [] → p ≠ s → 1 ≤ depthSum p

/-- Whitespace skipped between JSON tokens by `json.loads`. -/
def jsonWs (cs : List Char) : List Char :=
  cs.dropWhile fun c => c == ' ' || c == '\t' || c == '\n' || c == '\r'

/-- JSON string body up to the closing quote; escape sequences are outside
the modelled subset (none occur in the texts this development parses). -/
def jstrAux : List Char → Option (List Char × List Char)
  | [] => Option.none
  | c :: rest =>
    if c = '"' then some ([], rest)
    else if c = '\\' then Option.none
    else (jstrAux rest).map fun p => (c :: p.1, p.2)

/-- Negation of a parsed JSON numeric value. -/
def negVal : PyVal → PyVal
  | .int n => .int (-n)
  | .float q => .float (-q)
  | v => v

/-- Unsigned JSON number (digits, optional fraction; exponents are outside
the modelled subset). -/
def jnumU (cs : List Char) : Option (PyVal × List Char) :=
  let ip := cs.takeWhile Char.isDigit
  if ip.isEmpty then Option.none
  else
    match cs.drop ip.length with
    | '.' :: fr =>
      let fp := fr.takeWhile Char.isDigit
      if fp.isEmpty then Option.none
      else some (PyVal.float (parseUnsigned ip fp), fr.drop fp.length)
    | r => some (PyVal.int (digitsVal ip), r)

/-- Signed JSON number, see `jnumU`. -/
def jnum (cs : List Char) : Option (PyVal × List Char) :=
  match cs with
  | '-' :: rest => (jnumU rest).map fun p => (negVal p.1, p.2)
  | _ => jnumU cs

mutual

/-- Recursive-descent model of `json.loads` on the subset with unescaped
strings and exponent-free numbers; `fuel` dominates the recursion depth. -/
def parseJVal : Nat → List Char → Option (PyVal × List Char)
  | 0, _ => Option.none
  | fuel + 1, cs =>
    match jsonWs cs with
    | '"' :: rest => (jstrAux rest).map fun p => (PyVal.str (String.mk p.1), p.2)
    | '{' :: rest =>
      (match jsonWs rest with
       | '}' :: r2 => some (PyVal.dict [], r2)
       | _ => (parseJMembers fuel rest).map fun p => (PyVal.dict p.1, p.2))
    | '[' :: rest =>
      (match jsonWs rest with
       | ']' :: r2 => some (PyVal.list [], r2)
       | _ => (parseJElems fuel rest).map fun p => (PyVal.list p.1, p.2))
    | 't' :: 'r' :: 'u' :: 'e' :: rest => some (PyVal.bool true, rest)
    | 'f' :: 'a' :: 'l' :: 's' :: 'e' :: rest => some (PyVal.bool false, rest)
    | 'n' :: 'u' :: 'l' :: 'l' :: rest => some (PyVal.none, rest)
    | s => jnum s

/-- Object members: `"key" : value (, ...)* \x7d`. -/
def parseJMembers : Nat → List Char → Option (List (String × PyVal) × List Char)
  | 0, _ => Option.none
  | fuel + 1, cs =>
    match jsonWs cs with
    | '"' :: rest =>
      match jstrAux rest with
      | some (k, r1) =>
        (match jsonWs r1 with
         | ':' :: r2 =>
           match parseJVal fuel r2 with
           | some (v, r3) =>
             (match jsonWs r3 with
              | ',' :: r4 => (parseJMembers fuel r4).map fun p => ((String.mk k, v) :: p.1, p.2)
              | '}' :: r4 => some ([(String.mk k, v)], r4)
              | _ => Option.none)
           | _ => Option.none
         | _ => Option.none)
      | _ => Option.none
    | _ => Option.none

/-- Array elements: `value (, value)* ]`. -/
def parseJElems : Nat → List Char → Option (List PyVal × List Char)
  | 0, _ => Option.none
  | fuel + 1, cs =>
    match parseJVal fuel cs with
    | some (v, r1) =>
      (match jsonWs r1 with
       | ',' :: r2 => (parseJElems fuel r2).map fun p => (v :: p.1, p.2)
       | ']' :: r2 => some ([v], r2)
       | _ => Option.none)
    | _ => Option.none

end

/-- Model of `json.loads`: the whole input (up to trailing whitespace)
must be one JSON value. -/
def jsonLoads (s : String) : Option PyVal :=
  match parseJVal (2 * s.length + 4) s.toList with
  | some (v, rest) => if (jsonWs rest).isEmpty then some v else Option.none
  | _ => Option.none

namespace Extract

/-- Loop of `Extract.extract_text_from_images` over the batch, with the
abstracted S3 + model call per image given as `texts` (the raw response
text for each input name, per §1/§6 of the spec).  An image whose text
holds no balanced object is skipped (`continue` / loop falls through); a
balanced span that is not valid JSON makes `json.loads` raise, which
aborts the whole call. -/
def extractGo (texts : String → String) : List String → Except String (List (String × PyVal))
  | [] => .ok []
  | i :: rest =>
    match extractFirstObject (texts i).toList with
    | Option.none => extractGo texts rest
    | some span =>
      match jsonLoads (String.mk span) with
      | some v => do
        let r ← extractGo texts rest
        .ok ((i ++ ".jpg", v) :: r)
      | Option.none => .error "json.loads"

/-- Embedding of `Extract.extract_text_from_images`. -/
def extract_text_from_images (texts : String → String) (images : List String) :
    Except String (List (String × PyVal)) :=
  extractGo texts images

end Extract

/-- Row of the `documents` relation (`Load._create_tables`): `id` is the
SERIAL surrogate key, `filename` the unique natural key. -/
structure DocRow where
  id : Nat
  filename : String
  document_id : String
  name : String
  description : String
deriving DecidableEq

/-- Row of the `line_items` relation: `document_id` is the foreign key to
`documents.id`; the DECIMAL(10,2) columns are modelled as exact
rationals. -/
structure ItemRow where
  id : Nat
  document_id : Nat
  item : String
  quantity : Rat
  unit_price : Rat
  total : Rat
deriving DecidableEq

/-- Canonical line item of the data model (§3): the typed view of the
four-field dict produced by `Transform._clean_line_items`. -/
structure LineItem where
  item : String
  quantity : Rat
  unit_price : Rat
  total : Rat
deriving DecidableEq

/-- Canonical document of the data model (§3): the typed view of the
four-field dict produced by `Transform._clean_document`. -/
structure CanonDoc where
  document_id : String
  name : String
  description : String
  line_items : List LineItem
deriving DecidableEq

/-- Relational state owned by `Load`: the two relations plus the next
SERIAL values of their surrogate keys. -/
structure DB where
  documents : List DocRow
  line_items : List ItemRow
  docSeq : Nat := 1
  itemSeq : Nat := 1
deriving DecidableEq

/-- State after `Load._create_tables` on a fresh database. -/
def emptyDB : DB := { documents := [], line_items := [] }

/-- Data carried by a line-item row, forgetting the surrogate keys. -/
def itemRowData (it : ItemRow) : LineItem :=
  { item := it.item, quantity := it.quantity, unit_price := it.unit_price, total := it.total }

namespace Load

/-- The `INSERT INTO line_items ...` loop at the end of `Load.load`: one
row per line item, in sequence order, each referencing `docId` and
consuming a fresh SERIAL id. -/
def insertItems (db : DB) (docId : Nat) (items : List LineItem) : DB :=
  items.foldl
    (fun d it =>
      { d with
        line_items := d.line_items ++
          [{ id := d.itemSeq, document_id := docId, item := it.item,
             quantity := it.quantity, unit_price := it.unit_price, total := it.total }],
        itemSeq := d.itemSeq + 1 })
    db

/-- The `UPDATE documents SET document_id = ..., name = ..., description =
... WHERE id = ...` statement, applied to one row. -/
def updScalars (doc : CanonDoc) (i : Nat) (r : DocRow) : DocRow :=
  if r.id == i then
    { r with document_id := doc.document_id, name := doc.name, description := doc.description }
  else r

/-- Row built by `INSERT INTO documents (filename, document_id, name,
description) VALUES (...) RETURNING id`. -/
def newDocRow (db : DB) (nm : String) (doc : CanonDoc) : DocRow :=
  { id := db.docSeq, filename := nm, document_id := doc.document_id,
    name := doc.name, description := doc.description }

/-- Per-document body of `Load.load`: look up by `filename`; if present,
`UPDATE` the scalar columns and `DELETE FROM line_items WHERE document_id
= ...`; otherwise `INSERT ... RETURNING id`; then insert the new child
rows. -/
def loadDoc (db : DB) (nm : String) (doc : CanonDoc) : DB :=
  match db.documents.find? (fun r => r.filename == nm) with
  | some row =>
    insertItems
      { db with
        documents := db.documents.map (updScalars doc row.id),
        line_items := db.line_items.filter fun it => !(it.document_id == row.id) }
      row.id doc.line_items
  | Option.none =>
    insertItems
      { db with documents := db.documents ++ [newDocRow db nm doc], docSeq := db.docSeq + 1 }
      db.docSeq doc.line_items

/-- Embedding of `Load.load` when every statement succeeds: the loop over
`transformed_data.items()` in insertion order, followed by the single
`conn.commit()`. -/
def load (db : DB) (batch : List (String × CanonDoc)) : DB :=
  batch.foldl (fun d p => loadDoc d p.1 p.2) db

/-- Loop of `Load.load` inside the open transaction, with `failOn`
modelling a `cursor.execute` failure (constraint violation, connectivity
loss) while processing a given document: the raised exception aborts the
loop before `conn.commit()` is reached. -/
def loadGo (failOn : String → Bool) (db : DB) : List (String × CanonDoc) → Except String DB
  | [] => Except.ok db
  | (nm, d) :: rest =>
    if failOn nm then Except.error ("execute failed: " ++ nm)
    else loadGo failOn (loadDoc db nm d) rest

/-- One call of `Load.load` against durable state `persisted`: mutations
accumulate in the uncommitted transaction (`loadGo`); only the final
`conn.commit()` makes them durable, and an uncaught exception leaves the
transaction uncommitted (psycopg2 rolls it back when the connection
closes) and propagates to the caller. -/
def loadRun (failOn : String → Bool) (persisted : DB) (batch : List (String × CanonDoc)) :
    DB × Except String Unit :=
  match loadGo failOn persisted batch with
  | Except.ok pending => (pending, Except.ok ())
  | Except.error e => (persisted, Except.error e)

end Load

/-- Well-formedness of the relational state: SERIAL counters are ahead of
every existing id, ids and the natural key `filename` are unique (the
UNIQUE constraint of `_create_tables`), and every line item references an
existing document (the FOREIGN KEY constraint). -/
def DB.WF (db : DB) : Prop :=
  (∀ r ∈ db.documents, r.id < db.docSeq) ∧
  (∀ it ∈ db.line_items, it.id < db.itemSeq) ∧
  db.documents.Pairwise (fun a b => a.filename ≠ b.filename) ∧
  db.documents.Pairwise (fun a b => a.id ≠ b.id) ∧
  (∀ it ∈ db.line_items, ∃ r ∈ db.documents, r.id = it.document_id)

open Transform

theorem subWsGo_false_eq_nil_iff (l : List Char) : subWsGo false l = [] ↔ l = [] := by
  cases l with
  | nil => simp [subWsGo]
  | cons c rest => simp only [subWsGo]; split <;> simp

theorem subWsGo_true_eq_nil_iff (l : List Char) :
    subWsGo true l = [] ↔ ∀ c ∈ l, isPyWs c = true := by
  induction l with
  | nil => simp [subWsGo]
  | cons c rest ih =>
    simp only [subWsGo]
    by_cases h : isPyWs c = true
    · simp [h, ih]
    · simp [h]

theorem subWsGo_space_of_ws (l : List Char) :
    ∀ b c, c ∈ subWsGo b l → isPyWs c = true → c = ' ' := by
  induction l with
  | nil => intro b c hc; simp [subWsGo] at hc
  | cons a rest ih =>
    intro b c hc hws
    simp only [subWsGo] at hc
    by_cases ha : isPyWs a = true
    · rw [if_pos ha] at hc
      cases b with
      | true => rw [if_pos rfl] at hc; exact ih true c hc hws
      | false =>
        rw [if_neg (by simp)] at hc
        rcases List.mem_cons.mp hc with rfl | hc
        · rfl
        · exact ih true c hc hws
    · rw [if_neg ha] at hc
      rcases List.mem_cons.mp hc with rfl | hc
      · exact absurd hws ha
      · exact ih false c hc hws

theorem subWsGo_true_head (l : List Char) :
    ∀ c cs, subWsGo true l = c :: cs → isPyWs c = false := by
  induction l with
  | nil => intro c cs h; simp [subWsGo] at h
  | cons a rest ih =>
    intro c cs h
    simp only [subWsGo] at h
    by_cases ha : isPyWs a = true
    · simp only [ha, if_true] at h; exact ih c cs h
    · simp only [ha, Bool.false_eq_true, if_false] at h
      cases h
      simp only [Bool.not_eq_true] at ha
      exact ha

theorem subWsGo_head_not_ws (l : List Char)
    (hl : ∀ c ∈ l.head?, isPyWs c = false) :
    ∀ c ∈ (subWsGo false l).head?, isPyWs c = false := by
  cases l with
  | nil => simp [subWsGo]
  | cons a rest =>
    have ha : isPyWs a = false := hl a (by simp)
    intro c hc
    simp only [subWsGo, ha, Bool.false_eq_true, if_false, List.head?_cons,
      Option.mem_def, Option.some.injEq] at hc
    cases hc
    exact ha

theorem subWsGo_chain (l : List Char) :
    ∀ b, (subWsGo b l).Chain' (fun a c => isPyWs a = false ∨ isPyWs c = false) := by
  induction l with
  | nil => intro b; simp [subWsGo]
  | cons a rest ih =>
    intro b
    simp only [subWsGo]
    by_cases ha : isPyWs a = true
    · cases b with
      | true => simpa [ha] using ih true
      | false =>
        simp only [ha, if_true, Bool.false_eq_true, if_false]
        rw [List.chain'_cons']
        refine ⟨?_, ih true⟩
        intro x hx
        right
        cases hh : subWsGo true rest with
        | nil => simp [hh] at hx
        | cons y ys =>
          rw [hh] at hx
          simp only [List.head?_cons, Option.mem_def, Option.some.injEq] at hx
          subst hx
          exact subWsGo_true_head rest _ _ hh
    · simp only [ha, Bool.false_eq_true, if_false]
      rw [List.chain'_cons']
      refine ⟨?_, ih false⟩
      intro x _
      left
      simpa using ha

theorem subWsGo_getLast_not_ws (l : List Char) :
    ∀ b, (∀ x ∈ l.getLast?, isPyWs x = false) →
      ∀ c ∈ (subWsGo b l).getLast?, isPyWs c = false := by
  induction l with
  | nil => intro b _ c hc; simp [subWsGo] at hc
  | cons a rest ih =>
    intro b hl c hc
    simp only [subWsGo] at hc
    by_cases hrest : rest = []
    · subst hrest
      have ha := hl a (by simp)
      rw [if_neg (by simp [ha])] at hc
      simp only [subWsGo, List.getLast?_singleton, Option.mem_def, Option.some.injEq] at hc
      subst hc
      exact ha
    · have hl2 : ∀ x ∈ rest.getLast?, isPyWs x = false := fun x hx =>
        hl x (List.mem_getLast?_cons hx)
      by_cases ha : isPyWs a = true
      · rw [if_pos ha] at hc
        cases b with
        | true => rw [if_pos rfl] at hc; exact ih true hl2 c hc
        | false =>
          rw [if_neg (by simp)] at hc
          cases hh : subWsGo true rest with
          | nil =>
            rw [hh] at hc
            simp only [List.getLast?_singleton, Option.mem_def, Option.some.injEq] at hc
            subst hc
            exfalso
            rw [subWsGo_true_eq_nil_iff] at hh
            have h1 := hl2 (rest.getLast hrest)
              (by rw [List.getLast?_eq_getLast rest hrest]; rfl)
            have h2 := hh (rest.getLast hrest) (List.getLast_mem hrest)
            rw [h1] at h2
            exact Bool.false_ne_true h2
          | cons y ys =>
            rw [hh, List.getLast?_cons_cons, ← hh] at hc
            exact ih true hl2 c hc
      · rw [if_neg ha] at hc
        cases hh : subWsGo false rest with
        | nil => exact absurd ((subWsGo_false_eq_nil_iff rest).mp hh) hrest
        | cons y ys =>
          rw [hh, List.getLast?_cons_cons, ← hh] at hc
          exact ih false hl2 c hc

theorem dropWhile_head_not (p : Char → Bool) (l : List Char) :
    ∀ c cs, l.dropWhile p = c :: cs → p c = false := by
  induction l with
  | nil => intro c cs h; simp at h
  | cons a rest ih =>
    intro c cs h
    rw [List.dropWhile_cons] at h
    by_cases ha : p a = true
    · simp only [ha, if_true] at h; exact ih c cs h
    · simp only [ha, Bool.false_eq_true, if_false] at h
      cases h
      simpa using ha

theorem stripWs_head_not_ws (l : List Char) :
    ∀ c ∈ (stripWs l).head?, isPyWs c = false := by
  intro c hc
  cases hs : stripWs l with
  | nil => rw [hs] at hc; simp at hc
  | cons a cs =>
    rw [hs, List.head?_cons, Option.mem_def, Option.some.injEq] at hc
    rw [← hc]
    have hpre : stripWs l <+: List.dropWhile isPyWs l := List.rdropWhile_prefix _ _
    obtain ⟨t, ht⟩ := hpre
    rw [hs] at ht
    exact dropWhile_head_not isPyWs l a (cs ++ t) (by rw [← ht]; simp)

theorem stripWs_getLast_not_ws (l : List Char) :
    ∀ x ∈ (stripWs l).getLast?, isPyWs x = false := by
  intro x hx
  obtain ⟨h, rfl⟩ := List.mem_getLast?_eq_getLast hx
  have h2 := List.rdropWhile_last_not isPyWs (List.dropWhile isPyWs l)
    (by simpa [stripWs] using h)
  simpa [stripWs] using h2

theorem stripWs_eq_nil_iff (l : List Char) :
    stripWs l = [] ↔ ∀ c ∈ l, isPyWs c = true := by
  unfold stripWs
  rw [List.rdropWhile_eq_nil_iff]
  constructor
  · intro h c hc
    rcases List.mem_append.mp (by rw [List.takeWhile_append_dropWhile]; exact hc :
        c ∈ l.takeWhile isPyWs ++ l.dropWhile isPyWs) with h1 | h2
    · exact List.mem_takeWhile_imp h1
    · exact h c h2
  · intro h c hc
    exact h c ((List.dropWhile_sublist isPyWs).subset hc)

/-- C5 (amended).  `_clean_text` returns "N/A" on falsy or sentinel input;
on any other input it collapses each whitespace run of `str(value).strip()`
to a single space (every whitespace character of the result is a plain
space, no two adjacent whitespace characters remain) and trims both ends
(neither the first nor the last character of the result is whitespace);
for a string input the result is empty exactly when the string is
non-empty, not the sentinel, and consists of whitespace only — so,
contrary to the original claim, the result can be the empty string. -/
theorem c5_clean_text_spec :
    (∀ v : PyVal, pyFalsy v = true ∨ isNA v = true → clean_text v = "N/A") ∧
    (∀ v : PyVal, pyFalsy v = false → isNA v = false →
      clean_text v = String.mk (subWsRuns (stripWs (pyStrOf v).toList)) ∧
      (∀ c ∈ (clean_text v).toList, isPyWs c = true → c = ' ') ∧
      (clean_text v).toList.Chain' (fun a c => isPyWs a = false ∨ isPyWs c = false) ∧
      (∀ c ∈ (clean_text v).toList.head?, isPyWs c = false) ∧
      (∀ c ∈ (clean_text v).toList.getLast?, isPyWs c = false)) ∧
    (∀ s : String, s ≠ "" → s ≠ "N/A" →
      (clean_text (PyVal.str s) = "" ↔ ∀ c ∈ s.toList, isPyWs c = true)) := by
  refine ⟨?_, ?_, ?_⟩
  · intro v h
    rcases h with h | h <;> simp [clean_text, h]
  · intro v h1 h2
    have he : clean_text v = String.mk (subWsRuns (stripWs (pyStrOf v).toList)) := by
      simp [clean_text, h1, h2]
    have hl : (clean_text v).toList = subWsRuns (stripWs (pyStrOf v).toList) := by
      rw [he]; rfl
    refine ⟨he, ?_, ?_, ?_, ?_⟩
    · rw [hl]; exact fun c hc => subWsGo_space_of_ws _ false c hc
    · rw [hl]; exact subWsGo_chain _ false
    · rw [hl]; exact subWsGo_head_not_ws _ (stripWs_head_not_ws _)
    · rw [hl]; exact subWsGo_getLast_not_ws _ false (stripWs_getLast_not_ws _)
  · intro s h1 h2
    have hf : pyFalsy (PyVal.str s) = false := by
      simpa [pyFalsy] using h1
    have hn : isNA (PyVal.str s) = false := by
      simpa [isNA] using h2
    have he : clean_text (PyVal.str s) = String.mk (subWsRuns (stripWs s.toList)) := by
      simp [clean_text, hf, hn, pyStrOf]
    rw [he]
    constructor
    · intro h
      apply (stripWs_eq_nil_iff s.toList).mp
      apply (subWsGo_false_eq_nil_iff _).mp
      have := congrArg String.data h
      simpa [subWsRuns] using this
    · intro h
      rw [(stripWs_eq_nil_iff s.toList).mpr h]
      rfl

/-- C5 counterexample.  On the non-empty, non-sentinel, whitespace-only
string " " the cleaner returns the empty string, refuting "its result is
never the empty string". -/
theorem c5_counterexample :
    clean_text (PyVal.str " ") = "" ∧
    pyFalsy (PyVal.str " ") = false ∧ isNA (PyVal.str " ") = false :=
  ⟨rfl, rfl, rfl⟩

/-- Witness instantiating `c5_clean_text_spec` on concrete inputs. -/
theorem c5_witness :
    clean_text (PyVal.str "") = "N/A" ∧
    clean_text (PyVal.str " a \t b ") =
      String.mk (subWsRuns (stripWs (pyStrOf (PyVal.str " a \t b ")).toList)) ∧
    (clean_text (PyVal.str "  ") = "" ↔ ∀ c ∈ ("  ").toList, isPyWs c = true) :=
  ⟨c5_clean_text_spec.1 (PyVal.str "") (Or.inl rfl),
   (c5_clean_text_spec.2.1 (PyVal.str " a \t b ") rfl rfl).1,
   c5_clean_text_spec.2.2 "  " (by decide) (by decide)⟩

/-- C6.  Numeric coercion is not total: a Python boolean passes the
`isinstance(value, (int, float, Decimal))` test (`bool` is a subclass of
`int`) and `float(Decimal(str(value)))` then raises `InvalidOperation`
outside any `try` block, aborting normalization; every non-boolean value
does coerce without raising, strings via the character filter with
failures yielding 0. -/
theorem c6_to_decimal_not_total :
    to_decimal (PyVal.bool true) = Except.error "InvalidOperation" ∧
    to_decimal (PyVal.bool false) = Except.error "InvalidOperation" ∧
    (∀ v : PyVal, (∀ b, v ≠ PyVal.bool b) → ∃ q, to_decimal v = Except.ok q) ∧
    to_decimal (PyVal.str "10,50") = Except.ok ((21 : Rat) / 2) ∧
    to_decimal (PyVal.str "abc") = Except.ok 0 := by
  refine ⟨rfl, rfl, ?_, by with_unfolding_all rfl, rfl⟩
  intro v hv
  cases v with
  | bool c => exact absurd rfl (hv c)
  | int n => exact ⟨(n : Rat), rfl⟩
  | float q => exact ⟨q, rfl⟩
  | str s => exact ⟨(parseDecimal (cleanNumeric s)).getD 0, rfl⟩
  | none => exact ⟨0, rfl⟩
  | list xs => exact ⟨0, rfl⟩
  | dict kvs => exact ⟨0, rfl⟩

/-- Witness instantiating `c6_to_decimal_not_total` on a concrete
non-boolean value. -/
theorem c6_witness : ∃ q, to_decimal (PyVal.str "7") = Except.ok q :=
  c6_to_decimal_not_total.2.2.1 (PyVal.str "7") (fun b h => PyVal.noConfusion h)

/-- C9 (amended).  Alias fallback inspects key presence only: a present
earlier alias wins regardless of its value, later aliases being consulted
only on absence; a falsy resolved value yields the default "N/A" for text
fields; for numeric fields every falsy value except the boolean `False`
coerces to the default 0.0, while `False` makes `_to_decimal` raise
`InvalidOperation` (so there the claimed default is not produced — the
batch aborts instead). -/
theorem c9_presence_only :
    (∀ (kvs : List (String × PyVal)) (k : String) (ks : List String) (d v : PyVal),
      kvs.lookup k = some v → aliasResolve kvs (k :: ks) d = v) ∧
    (∀ v : PyVal, pyFalsy v = true → clean_text v = "N/A") ∧
    (∀ v : PyVal, pyFalsy v = true → (∀ b, v ≠ PyVal.bool b) →
      to_decimal v = Except.ok 0) ∧
    to_decimal (PyVal.bool false) = Except.error "InvalidOperation" := by
  refine ⟨?_, ?_, ?_, rfl⟩
  · intro kvs k ks d v h
    simp [aliasResolve, h]
  · intro v h
    simp [clean_text, h]
  · intro v h hb
    cases v with
    | bool c => exact absurd rfl (hb c)
    | int n =>
      have : n = 0 := by simpa [pyFalsy] using h
      subst this; rfl
    | float q =>
      have : q = 0 := by simpa [pyFalsy] using h
      subst this; rfl
    | str s =>
      have : s = "" := by simpa [pyFalsy] using h
      subst this; rfl
    | none => rfl
    | list xs => rfl
    | dict kvs => rfl

/-- C9 counterexample.  A line item whose `quantity` key is present with
the falsy value `False` (while the later alias `qty` holds the usable
"5") does not get the default 0.0: normalization raises
`InvalidOperation` instead, refuting "the canonical field becomes the
default". -/
theorem c9_counterexample :
    clean_line_items
      (PyVal.list [PyVal.dict [("quantity", PyVal.bool false), ("qty", PyVal.str "5")]]) =
      Except.error "InvalidOperation" := rfl

/-- Witness instantiating `c9_presence_only` on concrete inputs: the
present-but-null `quantity` key wins over the usable later alias and
coerces to the default. -/
theorem c9_witness :
    aliasResolve [("quantity", PyVal.none), ("qty", PyVal.str "5")]
      ["quantity", "qty"] (PyVal.int 0) = PyVal.none ∧
    to_decimal PyVal.none = Except.ok 0 ∧
    clean_text (PyVal.int 0) = "N/A" :=
  ⟨c9_presence_only.1 _ "quantity" _ _ _ rfl,
   c9_presence_only.2.2.1 PyVal.none rfl (fun b h => PyVal.noConfusion h),
   c9_presence_only.2.1 (PyVal.int 0) rfl⟩

theorem aliasResolve_lookup_some (kvs : List (String × PyVal)) (k : String)
    (ks : List String) (d v : PyVal) (h : kvs.lookup k = some v) :
    aliasResolve kvs (k :: ks) d = v := by
  simp [aliasResolve, h]

theorem aliasResolve_all_absent (kvs : List (String × PyVal)) (ks : List String)
    (d : PyVal) (h : ∀ k ∈ ks, kvs.lookup k = Option.none) :
    aliasResolve kvs ks d = d := by
  induction ks with
  | nil => rfl
  | cons k ks ih =>
    have hk : kvs.lookup k = Option.none := h k (by simp)
    simp only [aliasResolve, hk, Option.getD_none]
    exact ih fun k2 hk2 => h k2 (by simp [hk2])

/-- C4.  Each canonical field is resolved by the ordered alias-list policy
`aliasResolve` (first alias key present wins, and the value is then fed to
the appropriate cleaner), with defaults "N/A" for text fields and 0 for
numeric fields when no alias is present: the nested `doc.get` chains of
`_clean_document` and `_clean_line_items` coincide with `aliasResolve` on
the documented alias lists. -/
theorem c4_alias_policy :
    (∀ (kvs : List (String × PyVal)) (k : String) (ks : List String) (d v : PyVal),
      kvs.lookup k = some v → aliasResolve kvs (k :: ks) d = v) ∧
    (∀ (kvs : List (String × PyVal)) (ks : List String) (d : PyVal),
      (∀ k ∈ ks, kvs.lookup k = Option.none) → aliasResolve kvs ks d = d) ∧
    clean_text (PyVal.str "N/A") = "N/A" ∧
    to_decimal (PyVal.int 0) = Except.ok 0 ∧
    (∀ kvs li,
      clean_line_items (aliasResolve kvs ["line_items", "items"] (PyVal.list [])) =
          Except.ok li →
      clean_document kvs = Except.ok (PyVal.dict
        [("document_id", PyVal.str (clean_text
            (aliasResolve kvs ["document_id", "id", "number"] (PyVal.str "N/A")))),
         ("name", PyVal.str (clean_text
            (aliasResolve kvs ["name", "contractor", "supplier", "client"] (PyVal.str "N/A")))),
         ("description", PyVal.str (clean_text
            (aliasResolve kvs ["description", "desc"] (PyVal.str "N/A")))),
         ("line_items", li)])) ∧
    (∀ kvs q p t,
      to_decimal (aliasResolve kvs ["quantity", "qty"] (PyVal.int 0)) = Except.ok q →
      to_decimal (aliasResolve kvs ["unit_price", "price", "unit"] (PyVal.int 0)) = Except.ok p →
      to_decimal (aliasResolve kvs ["total", "amount"] (PyVal.int 0)) = Except.ok t →
      clean_item kvs = Except.ok (PyVal.dict
        [("item", PyVal.str (clean_text
            (aliasResolve kvs ["item", "description", "name"] (PyVal.str "N/A")))),
         ("quantity", PyVal.float q),
         ("unit_price", PyVal.float p),
         ("total", PyVal.float t)])) := by
  refine ⟨aliasResolve_lookup_some, aliasResolve_all_absent, rfl, rfl, ?_, ?_⟩
  · intro kvs li h
    have hd : dictGet kvs "line_items" (dictGet kvs "items" (PyVal.list [])) =
        aliasResolve kvs ["line_items", "items"] (PyVal.list []) := rfl
    simp only [clean_document, hd, h, bind, Except.bind]
    rfl
  · intro kvs q p t hq hp ht
    have h1 : dictGet kvs "quantity" (dictGet kvs "qty" (PyVal.int 0)) =
        aliasResolve kvs ["quantity", "qty"] (PyVal.int 0) := rfl
    have h2 : dictGet kvs "unit_price" (dictGet kvs "price" (dictGet kvs "unit" (PyVal.int 0))) =
        aliasResolve kvs ["unit_price", "price", "unit"] (PyVal.int 0) := rfl
    have h3 : dictGet kvs "total" (dictGet kvs "amount" (PyVal.int 0)) =
        aliasResolve kvs ["total", "amount"] (PyVal.int 0) := rfl
    simp only [clean_item, h1, h2, h3, hq, hp, ht, bind, Except.bind]
    rfl

/-- Witness instantiating `c4_alias_policy`: the `id` alias resolves the
document identifier when `document_id` is absent, an absent alias chain
falls back to the default, and a concrete document cleans to the
alias-resolved dict. -/
theorem c4_witness :
    aliasResolve [("id", PyVal.str "X7")] ["document_id", "id", "number"] (PyVal.str "N/A") =
        PyVal.str "X7" ∧
    aliasResolve [("id", PyVal.str "X7")] ["description", "desc"] (PyVal.str "N/A") =
        PyVal.str "N/A" ∧
    clean_document [("id", PyVal.str "X7")] = Except.ok (PyVal.dict
      [("document_id", PyVal.str (clean_text
          (aliasResolve [("id", PyVal.str "X7")] ["document_id", "id", "number"] (PyVal.str "N/A")))),
       ("name", PyVal.str (clean_text
          (aliasResolve [("id", PyVal.str "X7")] ["name", "contractor", "supplier", "client"] (PyVal.str "N/A")))),
       ("description", PyVal.str (clean_text
          (aliasResolve [("id", PyVal.str "X7")] ["description", "desc"] (PyVal.str "N/A")))),
       ("line_items", PyVal.list [])]) ∧
    clean_item [("qty", PyVal.str "2")] = Except.ok (PyVal.dict
      [("item", PyVal.str (clean_text
          (aliasResolve [("qty", PyVal.str "2")] ["item", "description", "name"] (PyVal.str "N/A")))),
       ("quantity", PyVal.float 2),
       ("unit_price", PyVal.float 0),
       ("total", PyVal.float 0)]) := by
  refine ⟨?_, ?_, ?_, ?_⟩
  · exact c4_alias_policy.1 [("id", PyVal.str "X7")] "id" ["number"] (PyVal.str "N/A")
      (PyVal.str "X7") rfl
  · exact c4_alias_policy.2.1 [("id", PyVal.str "X7")] ["description", "desc"]
      (PyVal.str "N/A") (by simp [List.lookup])
  · exact c4_alias_policy.2.2.2.2.1 [("id", PyVal.str "X7")] (PyVal.list []) rfl
  · exact c4_alias_policy.2.2.2.2.2 [("qty", PyVal.str "2")] 2 0 0
      (by with_unfolding_all rfl) rfl rfl

theorem depthSum_cons (c : Char) (l : List Char) :
    depthSum (c :: l) = braceDelta c + depthSum l := by
  simp [depthSum]

theorem mem_inits_cons {c : Char} {p t : List Char} (hp : p ∈ t.inits) :
    (c :: p) ∈ (c :: t).inits := by
  rw [List.inits_cons]
  exact List.mem_cons_of_mem _ (List.mem_map_of_mem _ hp)

theorem scanSpan_spec (s : List Char) : ∀ (post : List Char) (d : Int),
    1 ≤ d →
    (∀ p ∈ s.inits, p ≠ s → 1 ≤ d + depthSum p) →
    d + depthSum s = 0 →
    Extract.scanSpan (s ++ post) d = some s := by
  induction s with
  | nil =>
    intro post d h1 _ h3
    simp only [depthSum, List.map_nil, List.sum_nil, Int.add_zero] at h3
    omega
  | cons c t ih =>
    intro post d h1 h2 h3
    rw [depthSum_cons] at h3
    by_cases hc : c = '{'
    · subst hc
      rw [List.cons_append]
      simp only [Extract.scanSpan, if_pos rfl]
      have hdelta : braceDelta '{' = 1 := rfl
      rw [hdelta] at h3
      have ht : Extract.scanSpan (t ++ post) (d + 1) = some t := by
        apply ih post (d + 1) (by omega) ?_ (by omega)
        intro p hp hps
        have hstep := h2 ('{' :: p) (mem_inits_cons hp) (by simp [hps])
        rw [depthSum_cons, hdelta] at hstep
        omega
      rw [ht]
      rfl
    · by_cases hc2 : c = '}'
      · subst hc2
        have hdelta : braceDelta '}' = -1 := rfl
        rw [hdelta] at h3
        rw [List.cons_append]
        simp only [Extract.scanSpan]
        rw [if_neg (by decide)]
        by_cases hd : d = 1
        · rw [if_pos hd]
          have ht : t = [] := by
            by_contra hne
            have hstep := h2 ['}'] (mem_inits_cons (by simp)) (by simp [hne])
            rw [depthSum_cons, hdelta] at hstep
            simp only [depthSum, List.map_nil, List.sum_nil] at hstep
            omega
          subst ht
          rfl
        · rw [if_neg hd]
          have ht : Extract.scanSpan (t ++ post) (d - 1) = some t := by
            apply ih post (d - 1) ?_ ?_ (by omega)
            · by_cases hne : t = []
              · subst hne
                simp only [depthSum, List.map_nil, List.sum_nil] at h3
                omega
              · have hstep := h2 ['}'] (mem_inits_cons (by simp)) (by simp [hne])
                rw [depthSum_cons, hdelta] at hstep
                simp only [depthSum, List.map_nil, List.sum_nil] at hstep
                omega
            · intro p hp hps
              have hstep := h2 ('}' :: p) (mem_inits_cons hp) (by simp [hps])
              rw [depthSum_cons, hdelta] at hstep
              omega
          rw [ht]
          rfl
      · have hdelta : braceDelta c = 0 := by simp [braceDelta, hc, hc2]
        rw [hdelta] at h3
        rw [List.cons_append]
        simp only [Extract.scanSpan]
        rw [if_neg hc, if_neg hc2]
        have ht : Extract.scanSpan (t ++ post) d = some t := by
          apply ih post d h1 ?_ (by omega)
          intro p hp hps
          have hstep := h2 (c :: p) (mem_inits_cons hp) (by simp [hps])
          rw [depthSum_cons, hdelta] at hstep
          omega
        rw [ht]
        rfl

theorem scanSpan_some_depth (cs : List Char) : ∀ (d : Int) (r : List Char),
    Extract.scanSpan cs d = some r → ∃ p ∈ cs.inits, p ≠ [] ∧ d + depthSum p = 0 := by
  induction cs with
  | nil => intro d r h; simp [Extract.scanSpan] at h
  | cons c t ih =>
    intro d r h
    simp only [Extract.scanSpan] at h
    by_cases hc : c = '{'
    · subst hc
      rw [if_pos rfl] at h
      cases hsc : Extract.scanSpan t (d + 1) with
      | none => rw [hsc] at h; simp at h
      | some r2 =>
        obtain ⟨p, hp, hpne, hpd⟩ := ih (d + 1) r2 hsc
        refine ⟨'{' :: p, mem_inits_cons hp, by simp, ?_⟩
        rw [depthSum_cons]
        have : braceDelta '{' = 1 := rfl
        omega
    · by_cases hc2 : c = '}'
      · subst hc2
        rw [if_neg (by decide)] at h
        by_cases hd : d = 1
        · refine ⟨['}'], mem_inits_cons (by simp), by simp, ?_⟩
          rw [depthSum_cons]
          have h0 : braceDelta '}' = -1 := rfl
          simp only [depthSum, List.map_nil, List.sum_nil]
          omega
        · rw [if_neg hd] at h
          cases hsc : Extract.scanSpan t (d - 1) with
          | none => rw [hsc] at h; simp at h
          | some r2 =>
            obtain ⟨p, hp, hpne, hpd⟩ := ih (d - 1) r2 hsc
            refine ⟨'}' :: p, mem_inits_cons hp, by simp, ?_⟩
            rw [depthSum_cons]
            have : braceDelta '}' = -1 := rfl
            omega
      · rw [if_neg hc, if_neg hc2] at h
        cases hsc : Extract.scanSpan t d with
        | none => rw [hsc] at h; simp at h
        | some r2 =>
          obtain ⟨p, hp, hpne, hpd⟩ := ih d r2 hsc
          refine ⟨c :: p, mem_inits_cons hp, by simp, ?_⟩
          rw [depthSum_cons]
          have : braceDelta c = 0 := by simp [braceDelta, hc, hc2]
          omega

theorem extractFirstObject_skip (pre rest : List Char) (h : '{' ∉ pre) :
    Extract.extractFirstObject (pre ++ rest) = Extract.extractFirstObject rest := by
  induction pre with
  | nil => rfl
  | cons c t ih =>
    have hc : c ≠ '{' := fun hcc => h (by rw [hcc]; exact List.mem_cons_self _ _)
    rw [List.cons_append]
    simp only [Extract.extractFirstObject]
    rw [if_neg hc]
    exact ih fun hm => h (List.mem_cons_of_mem _ hm)

theorem extractFirstObject_no_brace (cs : List Char) (h : '{' ∉ cs) :
    Extract.extractFirstObject cs = Option.none := by
  have := extractFirstObject_skip cs [] h
  rw [List.append_nil] at this
  rw [this]
  rfl

/-- C3.  The response parser returns exactly the first balanced brace span
(balanced under depth counting from its first `'{'`), unchanged, for any
surrounding prose and anything — including further objects — after it;
with no `'{'` in the text, or with the depth never returning to zero after
the first `'{'`, it returns nothing. -/
theorem c3_first_object_scan :
    (∀ pre s post : List Char, '{' ∉ pre → BalancedSpan s →
      Extract.extractFirstObject (pre ++ s ++ post) = some s) ∧
    (∀ cs : List Char, '{' ∉ cs → Extract.extractFirstObject cs = Option.none) ∧
    (∀ pre t : List Char, '{' ∉ pre →
      (∀ p ∈ ('{' :: t).inits, p ≠ [] → depthSum p ≠ 0) →
      Extract.extractFirstObject (pre ++ '{' :: t) = Option.none) := by
  refine ⟨?_, extractFirstObject_no_brace, ?_⟩
  · intro pre s post hpre hbal
    obtain ⟨hhead, hsum, hpref⟩ := hbal
    obtain ⟨t, rfl⟩ : ∃ t, s = '{' :: t := by
      cases s with
      | nil => simp at hhead
      | cons a t =>
        rw [List.head?_cons, Option.some.injEq] at hhead
        exact ⟨t, by rw [hhead]⟩
    rw [List.append_assoc, extractFirstObject_skip pre _ hpre, List.cons_append]
    have ht : Extract.scanSpan (t ++ post) 1 = some t := by
      apply scanSpan_spec t post 1 le_rfl ?_ ?_
      · intro p hp hps
        have hstep := hpref ('{' :: p) (mem_inits_cons hp) (by simp) (by simp [hps])
        rw [depthSum_cons] at hstep
        have : braceDelta '{' = 1 := rfl
        omega
      · rw [depthSum_cons] at hsum
        have : braceDelta '{' = 1 := rfl
        omega
    simp [Extract.extractFirstObject, Extract.scanSpan, ht]
  · intro pre t hpre hdep
    rw [extractFirstObject_skip pre _ hpre]
    simp only [Extract.extractFirstObject, if_pos rfl]
    cases hsc : Extract.scanSpan ('{' :: t) 0 with
    | none => rfl
    | some r =>
      obtain ⟨p, hp, hpne, hpd⟩ := scanSpan_some_depth ('{' :: t) 0 r hsc
      exact absurd (by omega : depthSum p = 0) (hdep p hp hpne)

/-- Witness instantiating `c3_first_object_scan`: prose before, a nested
balanced object, and a second object after — only the first span is
returned; a text whose brace depth never closes yields nothing. -/
theorem c3_witness :
    Extract.extractFirstObject
        (("ab ".toList) ++ ("\x7bx\x7b\x7d\x7d".toList) ++ (" \x7bz\x7d".toList)) =
      some ("\x7bx\x7b\x7d\x7d".toList) ∧
    Extract.extractFirstObject ("no object".toList) = Option.none ∧
    Extract.extractFirstObject (("ab".toList) ++ '{' :: ("x\x7by\x7d".toList)) =
      Option.none :=
  ⟨c3_first_object_scan.1 _ _ _ (by decide) (by constructor <;> decide),
   c3_first_object_scan.2.1 _ (by decide),
   c3_first_object_scan.2.2 _ _ (by decide) (by decide)⟩

theorem insertItems_spec (items : List LineItem) : ∀ (db : DB) (docId : Nat),
    (Load.insertItems db docId items).documents = db.documents ∧
    (Load.insertItems db docId items).docSeq = db.docSeq ∧
    (Load.insertItems db docId items).itemSeq = db.itemSeq + items.length ∧
    ∃ rows, (Load.insertItems db docId items).line_items = db.line_items ++ rows ∧
      rows.map itemRowData = items ∧
      ∀ it ∈ rows, it.document_id = docId ∧ db.itemSeq ≤ it.id ∧
        it.id < db.itemSeq + items.length := by
  induction items with
  | nil =>
    intro db docId
    exact ⟨rfl, rfl, rfl, [], by simp [Load.insertItems], rfl, by simp⟩
  | cons it rest ih =>
    intro db docId
    have hstep : Load.insertItems db docId (it :: rest) =
        Load.insertItems
          { db with
            line_items := db.line_items ++
              [{ id := db.itemSeq, document_id := docId, item := it.item,
                 quantity := it.quantity, unit_price := it.unit_price, total := it.total }],
            itemSeq := db.itemSeq + 1 } docId rest := rfl
    obtain ⟨h1, h2, h3, rows, hli, hmap, hbnd⟩ :=
      ih { db with
            line_items := db.line_items ++
              [{ id := db.itemSeq, document_id := docId, item := it.item,
                 quantity := it.quantity, unit_price := it.unit_price, total := it.total }],
            itemSeq := db.itemSeq + 1 } docId
    rw [hstep]
    refine ⟨h1, h2, by rw [h3]; simp only [List.length_cons]; omega, ?_⟩
    refine ⟨{ id := db.itemSeq, document_id := docId, item := it.item,
              quantity := it.quantity, unit_price := it.unit_price,
              total := it.total } :: rows, ?_, ?_, ?_⟩
    · rw [hli]; simp
    · rw [List.map_cons, hmap]; rfl
    · intro it2 hit2
      rcases List.mem_cons.mp hit2 with rfl | hit2
      · refine ⟨rfl, le_rfl, by simp only [List.length_cons]; omega⟩
      · obtain ⟨hb1, hb2, hb3⟩ := hbnd it2 hit2
        simp only at hb2 hb3
        refine ⟨hb1, by omega, by simp only [List.length_cons]; omega⟩

theorem filter_eq_of_unique (l : List DocRow) (row : DocRow) (nm : String)
    (hpw : l.Pairwise (fun a b => a.filename ≠ b.filename))
    (hmem : row ∈ l) (hnm : row.filename = nm) :
    l.filter (fun r => r.filename == nm) = [row] := by
  induction l with
  | nil => cases hmem
  | cons a t ih =>
    rw [List.pairwise_cons] at hpw
    rcases List.mem_cons.mp hmem with rfl | hmem2
    · rw [List.filter_cons, if_pos (by simp [hnm])]
      have ht : t.filter (fun r => r.filename == nm) = [] := by
        rw [List.filter_eq_nil_iff]
        intro r hr
        simp only [beq_iff_eq]
        rw [← hnm]
        exact (hpw.1 r hr).symm
      rw [ht]
    · have ha : ¬(a.filename = nm) := by
        rw [← hnm]
        exact hpw.1 row hmem2
      rw [List.filter_cons, if_neg (by simp [ha])]
      exact ih hpw.2 hmem2

theorem filter_map_pres (f : DocRow → DocRow) (hf : ∀ r, (f r).filename = r.filename)
    (l : List DocRow) (nm : String) :
    (l.map f).filter (fun r => r.filename == nm) =
      (l.filter (fun r => r.filename == nm)).map f := by
  induction l with
  | nil => rfl
  | cons a t ih =>
    rw [List.map_cons, List.filter_cons, List.filter_cons]
    by_cases h : a.filename = nm
    · rw [if_pos (by simp [hf, h]), if_pos (by simp [h]), List.map_cons, ih]
    · rw [if_neg (by simp [hf, h]), if_neg (by simp [h]), ih]

theorem find?_filename_none {l : List DocRow} {nm : String}
    (h : l.find? (fun r => r.filename == nm) = Option.none) :
    ∀ r ∈ l, r.filename ≠ nm := by
  intro r hr
  have := List.find?_eq_none.mp h r hr
  simpa using this

theorem find?_filename_some {l : List DocRow} {nm : String} {row : DocRow}
    (h : l.find? (fun r => r.filename == nm) = some row) :
    row ∈ l ∧ row.filename = nm :=
  ⟨List.mem_of_find?_eq_some h, by simpa using List.find?_some h⟩

theorem updScalars_filename (doc : CanonDoc) (i : Nat) (r : DocRow) :
    (Load.updScalars doc i r).filename = r.filename := by
  unfold Load.updScalars
  split <;> rfl

theorem updScalars_id (doc : CanonDoc) (i : Nat) (r : DocRow) :
    (Load.updScalars doc i r).id = r.id := by
  unfold Load.updScalars
  split <;> rfl

theorem loadDoc_found (db : DB) (nm : String) (doc : CanonDoc) (row : DocRow)
    (hwf : DB.WF db) (hfind : db.documents.find? (fun r => r.filename == nm) = some row) :
    DB.WF (Load.loadDoc db nm doc) ∧
    ((Load.loadDoc db nm doc).documents.filter (fun r => r.filename == nm)).length = 1 ∧
    (∀ r ∈ (Load.loadDoc db nm doc).documents, r.filename = nm →
      r.document_id = doc.document_id ∧ r.name = doc.name ∧ r.description = doc.description ∧
      ((Load.loadDoc db nm doc).line_items.filter
          (fun it => it.document_id == r.id)).map itemRowData = doc.line_items) ∧
    (∀ r ∈ db.documents, ∃ r2 ∈ (Load.loadDoc db nm doc).documents,
      r2.id = r.id ∧ r2.filename = r.filename) := by
  obtain ⟨hmem, hnm⟩ := find?_filename_some hfind
  obtain ⟨hids, hitems, hpwf, hpwid, hfk⟩ := hwf
  have hres : Load.loadDoc db nm doc =
      Load.insertItems
        { db with
          documents := db.documents.map (Load.updScalars doc row.id),
          line_items := db.line_items.filter fun it => !(it.document_id == row.id) }
        row.id doc.line_items := by
    simp only [Load.loadDoc, hfind]
  obtain ⟨hdocs, hdseq, hiseq, rows, hli, hmap, hbnd⟩ :=
    insertItems_spec doc.line_items
      { db with
        documents := db.documents.map (Load.updScalars doc row.id),
        line_items := db.line_items.filter fun it => !(it.document_id == row.id) }
      row.id
  dsimp only at hdocs hdseq hiseq hli hbnd
  have hfilter : (db.documents.map (Load.updScalars doc row.id)).filter
      (fun r => r.filename == nm) = [Load.updScalars doc row.id row] := by
    rw [filter_map_pres _ (updScalars_filename doc row.id),
      filter_eq_of_unique _ row nm hpwf hmem hnm]
    rfl
  refine ⟨⟨?_, ?_, ?_, ?_, ?_⟩, ?_, ?_, ?_⟩
  · rw [hres, hdocs, hdseq]
    intro r hr
    obtain ⟨r0, hr0, rfl⟩ := List.mem_map.mp hr
    rw [updScalars_id]
    exact hids r0 hr0
  · rw [hres, hli, hiseq]
    intro it hit
    rcases List.mem_append.mp hit with hit2 | hit2
    · have := hitems it (List.mem_filter.mp hit2).1
      omega
    · have := (hbnd it hit2).2.2
      omega
  · rw [hres, hdocs]
    exact List.pairwise_map.mpr
      (hpwf.imp fun hab => by
        rw [updScalars_filename, updScalars_filename]
        exact hab)
  · rw [hres, hdocs]
    exact List.pairwise_map.mpr
      (hpwid.imp fun hab => by
        rw [updScalars_id, updScalars_id]
        exact hab)
  · rw [hres, hdocs, hli]
    intro it hit
    rcases List.mem_append.mp hit with hit2 | hit2
    · obtain ⟨r0, hr0, hr0id⟩ := hfk it (List.mem_filter.mp hit2).1
      exact ⟨Load.updScalars doc row.id r0, List.mem_map_of_mem _ hr0,
        by rw [updScalars_id]; exact hr0id⟩
    · exact ⟨Load.updScalars doc row.id row, List.mem_map_of_mem _ hmem,
        by rw [updScalars_id]; exact ((hbnd it hit2).1).symm⟩
  · rw [hres, hdocs, hfilter]
    rfl
  · intro r hr hrnm
    rw [hres, hdocs] at hr
    have hrmem : r ∈ [Load.updScalars doc row.id row] := by
      rw [← hfilter]
      exact List.mem_filter.mpr ⟨hr, by simp [hrnm]⟩
    have hreq : r = Load.updScalars doc row.id row := by simpa using hrmem
    have hkey : Load.updScalars doc row.id row =
        { row with
            document_id := doc.document_id
            name := doc.name
            description := doc.description } := by
      unfold Load.updScalars
      rw [if_pos (by simp)]
    refine ⟨by rw [hreq, hkey], by rw [hreq, hkey], by rw [hreq, hkey], ?_⟩
    have hrid : r.id = row.id := by rw [hreq, updScalars_id]
    rw [hres, hli, hrid, List.filter_append]
    have h1 : (db.line_items.filter fun it => !(it.document_id == row.id)).filter
        (fun it => it.document_id == row.id) = [] := by
      rw [List.filter_eq_nil_iff]
      intro a ha
      have := (List.mem_filter.mp ha).2
      simp at this
      simp [this]
    have h2 : rows.filter (fun it => it.document_id == row.id) = rows := by
      rw [List.filter_eq_self]
      intro a ha
      simp [(hbnd a ha).1]
    rw [h1, h2, List.nil_append, hmap]
  · intro r hr
    exact ⟨Load.updScalars doc row.id r,
      by rw [hres, hdocs]; exact List.mem_map_of_mem _ hr,
      updScalars_id doc row.id r, updScalars_filename doc row.id r⟩

theorem loadDoc_insert (db : DB) (nm : String) (doc : CanonDoc)
    (hwf : DB.WF db)
    (hfind : db.documents.find? (fun r => r.filename == nm) = Option.none) :
    DB.WF (Load.loadDoc db nm doc) ∧
    ((Load.loadDoc db nm doc).documents.filter (fun r => r.filename == nm)).length = 1 ∧
    (∀ r ∈ (Load.loadDoc db nm doc).documents, r.filename = nm →
      r.document_id = doc.document_id ∧ r.name = doc.name ∧ r.description = doc.description ∧
      ((Load.loadDoc db nm doc).line_items.filter
          (fun it => it.document_id == r.id)).map itemRowData = doc.line_items) ∧
    (∀ r ∈ db.documents, ∃ r2 ∈ (Load.loadDoc db nm doc).documents,
      r2.id = r.id ∧ r2.filename = r.filename) := by
  have hall := find?_filename_none hfind
  obtain ⟨hids, hitems, hpwf, hpwid, hfk⟩ := hwf
  have hres : Load.loadDoc db nm doc =
      Load.insertItems
        { db with
            documents := db.documents ++ [Load.newDocRow db nm doc]
            docSeq := db.docSeq + 1 }
        db.docSeq doc.line_items := by
    simp only [Load.loadDoc, hfind]
  obtain ⟨hdocs, hdseq, hiseq, rows, hli, hmap, hbnd⟩ :=
    insertItems_spec doc.line_items
      { db with
          documents := db.documents ++ [Load.newDocRow db nm doc]
          docSeq := db.docSeq + 1 }
      db.docSeq
  dsimp only at hdocs hdseq hiseq hli hbnd
  have hnewid : (Load.newDocRow db nm doc).id = db.docSeq := rfl
  have hnewnm : (Load.newDocRow db nm doc).filename = nm := rfl
  have hfilter : (db.documents ++ [Load.newDocRow db nm doc]).filter
      (fun r => r.filename == nm) = [Load.newDocRow db nm doc] := by
    rw [List.filter_append]
    have h1 : db.documents.filter (fun r => r.filename == nm) = [] := by
      rw [List.filter_eq_nil_iff]
      intro a ha
      simp [hall a ha]
    rw [h1, List.nil_append, List.filter_cons, if_pos (by simp [hnewnm])]
    rfl
  have holdid : ∀ it ∈ db.line_items, it.document_id ≠ db.docSeq := by
    intro it hit
    obtain ⟨r0, hr0, hr0id⟩ := hfk it hit
    have := hids r0 hr0
    omega
  refine ⟨⟨?_, ?_, ?_, ?_, ?_⟩, ?_, ?_, ?_⟩
  · rw [hres, hdocs, hdseq]
    intro r hr
    rcases List.mem_append.mp hr with hr2 | hr2
    · have := hids r hr2
      omega
    · have : r = Load.newDocRow db nm doc := by simpa using hr2
      rw [this, hnewid]
      omega
  · rw [hres, hli, hiseq]
    intro it hit
    rcases List.mem_append.mp hit with hit2 | hit2
    · have := hitems it hit2
      omega
    · have := (hbnd it hit2).2.2
      omega
  · rw [hres, hdocs]
    rw [List.pairwise_append]
    refine ⟨hpwf, by simp, ?_⟩
    intro a ha b hb
    have : b = Load.newDocRow db nm doc := by simpa using hb
    rw [this, hnewnm]
    exact hall a ha
  · rw [hres, hdocs]
    rw [List.pairwise_append]
    refine ⟨hpwid, by simp, ?_⟩
    intro a ha b hb
    have hb2 : b = Load.newDocRow db nm doc := by simpa using hb
    have := hids a ha
    rw [hb2, hnewid]
    omega
  · rw [hres, hdocs, hli]
    intro it hit
    rcases List.mem_append.mp hit with hit2 | hit2
    · obtain ⟨r0, hr0, hr0id⟩ := hfk it hit2
      exact ⟨r0, List.mem_append.mpr (Or.inl hr0), hr0id⟩
    · exact ⟨Load.newDocRow db nm doc,
        List.mem_append.mpr (Or.inr (List.mem_cons_self _ _)),
        by rw [hnewid]; exact ((hbnd it hit2).1).symm⟩
  · rw [hres, hdocs, hfilter]
    rfl
  · intro r hr hrnm
    rw [hres, hdocs] at hr
    have hrmem : r ∈ [Load.newDocRow db nm doc] := by
      rw [← hfilter]
      exact List.mem_filter.mpr ⟨hr, by simp [hrnm]⟩
    have hreq : r = Load.newDocRow db nm doc := by simpa using hrmem
    refine ⟨by rw [hreq]; rfl, by rw [hreq]; rfl, by rw [hreq]; rfl, ?_⟩
    have hrid : r.id = db.docSeq := by rw [hreq, hnewid]
    rw [hres, hli, hrid, List.filter_append]
    have h1 : db.line_items.filter (fun it => it.document_id == db.docSeq) = [] := by
      rw [List.filter_eq_nil_iff]
      intro a ha
      simp [holdid a ha]
    have h2 : rows.filter (fun it => it.document_id == db.docSeq) = rows := by
      rw [List.filter_eq_self]
      intro a ha
      simp [(hbnd a ha).1]
    rw [h1, h2, List.nil_append, hmap]
  · intro r hr
    exact ⟨r, by rw [hres, hdocs]; exact List.mem_append.mpr (Or.inl hr), rfl, rfl⟩

theorem loadDoc_spec (db : DB) (nm : String) (doc : CanonDoc) (hwf : DB.WF db) :
    DB.WF (Load.loadDoc db nm doc) ∧
    ((Load.loadDoc db nm doc).documents.filter (fun r => r.filename == nm)).length = 1 ∧
    (∀ r ∈ (Load.loadDoc db nm doc).documents, r.filename = nm →
      r.document_id = doc.document_id ∧ r.name = doc.name ∧ r.description = doc.description ∧
      ((Load.loadDoc db nm doc).line_items.filter
          (fun it => it.document_id == r.id)).map itemRowData = doc.line_items) ∧
    (∀ r ∈ db.documents, ∃ r2 ∈ (Load.loadDoc db nm doc).documents,
      r2.id = r.id ∧ r2.filename = r.filename) := by
  cases hfind : db.documents.find? (fun r => r.filename == nm) with
  | none => exact loadDoc_insert db nm doc hwf hfind
  | some row => exact loadDoc_found db nm doc row hwf hfind

theorem load_spec (batch : List (String × CanonDoc)) : ∀ db : DB, DB.WF db →
    DB.WF (Load.load db batch) ∧
    (∀ r ∈ db.documents, ∃ r2 ∈ (Load.load db batch).documents,
      r2.id = r.id ∧ r2.filename = r.filename) := by
  induction batch with
  | nil => exact fun db hwf => ⟨hwf, fun r hr => ⟨r, hr, rfl, rfl⟩⟩
  | cons p rest ih =>
    intro db hwf
    have hl : Load.load db (p :: rest) = Load.load (Load.loadDoc db p.1 p.2) rest := rfl
    obtain ⟨hwf1, _, _, hmono1⟩ := loadDoc_spec db p.1 p.2 hwf
    obtain ⟨hwf2, hmono2⟩ := ih (Load.loadDoc db p.1 p.2) hwf1
    refine ⟨by rw [hl]; exact hwf2, ?_⟩
    intro r hr
    obtain ⟨r2, hr2, hid2, hnm2⟩ := hmono1 r hr
    obtain ⟨r3, hr3, hid3, hnm3⟩ := hmono2 r2 hr2
    exact ⟨r3, by rw [hl]; exact hr3, by rw [hid3, hid2], by rw [hnm3, hnm2]⟩

theorem load_fold_wf (runs : List (List (String × CanonDoc))) :
    ∀ db : DB, DB.WF db → DB.WF (runs.foldl Load.load db) := by
  induction runs with
  | nil => exact fun db h => h
  | cons b rest ih => exact fun db h => ih _ (load_spec b db h).1

/-- C1.  Running `Load.load` twice for the same input name (with the same
or a changed canonical document) against any well-formed store leaves
exactly one document row with that filename; its scalar columns are those
of the most recent document, and its child line-item rows (in order) are
exactly the most recent document's line-item sequence — the earlier ones
are fully removed, never merged. -/
theorem c1_load_upsert (db : DB) (nm : String) (d1 d2 : CanonDoc) (hwf : DB.WF db) :
    ((Load.load (Load.load db [(nm, d1)]) [(nm, d2)]).documents.filter
        (fun r => r.filename == nm)).length = 1 ∧
    ∀ r ∈ (Load.load (Load.load db [(nm, d1)]) [(nm, d2)]).documents, r.filename = nm →
      r.document_id = d2.document_id ∧ r.name = d2.name ∧ r.description = d2.description ∧
      ((Load.load (Load.load db [(nm, d1)]) [(nm, d2)]).line_items.filter
          (fun it => it.document_id == r.id)).map itemRowData = d2.line_items := by
  have h1 : Load.load db [(nm, d1)] = Load.loadDoc db nm d1 := rfl
  have h2 : Load.load (Load.loadDoc db nm d1) [(nm, d2)] =
      Load.loadDoc (Load.loadDoc db nm d1) nm d2 := rfl
  obtain ⟨hwf1, _, _, _⟩ := loadDoc_spec db nm d1 hwf
  obtain ⟨_, hcount, hfields, _⟩ := loadDoc_spec (Load.loadDoc db nm d1) nm d2 hwf1
  rw [h1, h2]
  exact ⟨hcount, hfields⟩

/-- Canonical document used by concrete witnesses. -/
def sampleDocA : CanonDoc :=
  { document_id := "INV-1", name := "Acme", description := "N/A",
    line_items := [{ item := "Widget", quantity := 2, unit_price := 21 / 2, total := 0 }] }

/-- Second canonical document used by concrete witnesses. -/
def sampleDocB : CanonDoc :=
  { document_id := "INV-2", name := "Beta", description := "steel parts",
    line_items := [{ item := "Bolt", quantity := 1, unit_price := 3, total := 3 },
                   { item := "Nut", quantity := 4, unit_price := 1, total := 4 }] }

/-- Witness instantiating `c1_load_upsert` at the empty store. -/
theorem c1_witness :
    ((Load.load (Load.load emptyDB [("a.jpg", sampleDocA)])
        [("a.jpg", sampleDocB)]).documents.filter
      (fun r => r.filename == "a.jpg")).length = 1 :=
  (c1_load_upsert emptyDB "a.jpg" sampleDocA sampleDocB
    ⟨by simp [emptyDB], by simp [emptyDB], by simp [emptyDB], by simp [emptyDB],
     by simp [emptyDB]⟩).1

theorem loadGo_error (failOn : String → Bool) (batch : List (String × CanonDoc)) :
    ∀ db : DB, (∃ nm ∈ batch.map Prod.fst, failOn nm = true) →
      ∃ e, Load.loadGo failOn db batch = Except.error e := by
  induction batch with
  | nil => intro db h; simp at h
  | cons p rest ih =>
    intro db h
    obtain ⟨nm, d⟩ := p
    simp only [Load.loadGo]
    by_cases hf : failOn nm = true
    · rw [if_pos hf]
      exact ⟨_, rfl⟩
    · rw [if_neg hf]
      apply ih
      rcases h with ⟨nm2, hnm2, hf2⟩
      simp only [List.map_cons] at hnm2
      rcases List.mem_cons.mp hnm2 with rfl | hmem
      · exact absurd hf2 hf
      · exact ⟨nm2, hmem, hf2⟩

theorem loadGo_ok (failOn : String → Bool) (batch : List (String × CanonDoc)) :
    ∀ db : DB, (∀ nm ∈ batch.map Prod.fst, failOn nm = false) →
      Load.loadGo failOn db batch = Except.ok (Load.load db batch) := by
  induction batch with
  | nil => intro db _; rfl
  | cons p rest ih =>
    intro db h
    obtain ⟨nm, d⟩ := p
    simp only [Load.loadGo]
    rw [if_neg (by simp [h nm (List.mem_cons_self _ _)])]
    exact ih (Load.loadDoc db nm d) fun nm2 h2 => h nm2 (List.mem_cons_of_mem _ h2)

/-- C2.  All row mutations of a batch become durable together through the
single final commit: if any per-document step fails mid-batch, the
persisted state is exactly the pre-batch state (nothing of the batch is
committed) and the error is surfaced to the caller; if no step fails, the
committed state is the full batch fold and success is reported. -/
theorem c2_transactional (failOn : String → Bool) (db : DB)
    (batch : List (String × CanonDoc)) :
    ((∃ nm ∈ batch.map Prod.fst, failOn nm = true) →
      (Load.loadRun failOn db batch).1 = db ∧
      ∃ e, (Load.loadRun failOn db batch).2 = Except.error e) ∧
    ((∀ nm ∈ batch.map Prod.fst, failOn nm = false) →
      Load.loadRun failOn db batch = (Load.load db batch, Except.ok ())) := by
  constructor
  · intro h
    obtain ⟨e, he⟩ := loadGo_error failOn batch db h
    refine ⟨?_, e, ?_⟩ <;> simp [Load.loadRun, he]
  · intro h
    simp only [Load.loadRun, loadGo_ok failOn batch db h]

/-- Witness instantiating `c2_transactional`: a failure on the second
document leaves the persisted store untouched and reports an error, while
an error-free batch commits the fold and reports success. -/
theorem c2_witness :
    (Load.loadRun (fun nm => nm == "b.jpg") emptyDB
        [("a.jpg", sampleDocA), ("b.jpg", sampleDocB)]).1 = emptyDB ∧
    (∃ e, (Load.loadRun (fun nm => nm == "b.jpg") emptyDB
        [("a.jpg", sampleDocA), ("b.jpg", sampleDocB)]).2 = Except.error e) ∧
    Load.loadRun (fun _ => false) emptyDB [("a.jpg", sampleDocA)] =
      (Load.load emptyDB [("a.jpg", sampleDocA)], Except.ok ()) :=
  ⟨((c2_transactional (fun nm => nm == "b.jpg") emptyDB
      [("a.jpg", sampleDocA), ("b.jpg", sampleDocB)]).1 ⟨"b.jpg", by simp, rfl⟩).1,
   ((c2_transactional (fun nm => nm == "b.jpg") emptyDB
      [("a.jpg", sampleDocA), ("b.jpg", sampleDocB)]).1 ⟨"b.jpg", by simp, rfl⟩).2,
   (c2_transactional (fun _ => false) emptyDB [("a.jpg", sampleDocA)]).2 (by simp)⟩

/-- C8.  Store invariants across every sequence of Load runs starting from
the freshly-created schema: well-formedness (unique filenames — at most
one document row per input name —, unique ids, and every line-item row
referencing an existing document row) holds initially and is preserved by
every run, and no document row is ever deleted: each existing row survives
any run with its id and filename intact. -/
theorem c8_invariants :
    DB.WF emptyDB ∧
    (∀ runs : List (List (String × CanonDoc)), DB.WF (runs.foldl Load.load emptyDB)) ∧
    (∀ (db : DB) (batch : List (String × CanonDoc)), DB.WF db →
      DB.WF (Load.load db batch) ∧
      ∀ r ∈ db.documents, ∃ r2 ∈ (Load.load db batch).documents,
        r2.id = r.id ∧ r2.filename = r.filename) := by
  have hempty : DB.WF emptyDB :=
    ⟨by simp [emptyDB], by simp [emptyDB], by simp [emptyDB], by simp [emptyDB],
     by simp [emptyDB]⟩
  exact ⟨hempty, fun runs => load_fold_wf runs emptyDB hempty,
    fun db batch hwf => load_spec batch db hwf⟩

/-- Witness instantiating `c8_invariants` on a concrete two-run history. -/
theorem c8_witness :
    DB.WF (Load.load (Load.load emptyDB [("a.jpg", sampleDocA)]) [("b.jpg", sampleDocB)]) ∧
    (∃ r2 ∈ (Load.load (Load.load emptyDB [("a.jpg", sampleDocA)])
        [("b.jpg", sampleDocB)]).documents,
      r2.id = 1 ∧ r2.filename = "a.jpg") := by
  have h1 := (c8_invariants.2.2 emptyDB [("a.jpg", sampleDocA)] c8_invariants.1).1
  have h2 := c8_invariants.2.2 (Load.load emptyDB [("a.jpg", sampleDocA)])
    [("b.jpg", sampleDocB)] h1
  refine ⟨h2.1, ?_⟩
  have hmem : ({ id := 1
                 filename := "a.jpg"
                 document_id := "INV-1"
                 name := "Acme"
                 description := "N/A" } : DocRow) ∈
      (Load.load emptyDB [("a.jpg", sampleDocA)]).documents := by
    with_unfolding_all decide
  obtain ⟨r2, hr2, hid, hnm⟩ := h2.2 _ hmem
  exact ⟨r2, hr2, by rw [hid], by rw [hnm]⟩

/-- Shape of a cleaned line item: exactly the four canonical fields, the
item a string and the numerics floats. -/
def itemShaped (y : PyVal) : Prop :=
  ∃ s q p t, y = PyVal.dict
    [("item", PyVal.str s), ("quantity", PyVal.float q),
     ("unit_price", PyVal.float p), ("total", PyVal.float t)]

theorem clean_item_shape (kvs : List (String × PyVal)) (c : PyVal)
    (h : Transform.clean_item kvs = Except.ok c) : itemShaped c := by
  simp only [Transform.clean_item] at h
  cases hq : Transform.to_decimal (Transform.dictGet kvs "quantity"
      (Transform.dictGet kvs "qty" (PyVal.int 0))) with
  | error e => rw [hq] at h; cases h
  | ok q =>
    simp only [hq] at h
    cases hp : Transform.to_decimal (Transform.dictGet kvs "unit_price"
        (Transform.dictGet kvs "price" (Transform.dictGet kvs "unit" (PyVal.int 0)))) with
    | error e => rw [hp] at h; cases h
    | ok p =>
      simp only [hp] at h
      cases ht : Transform.to_decimal (Transform.dictGet kvs "total"
          (Transform.dictGet kvs "amount" (PyVal.int 0))) with
      | error e => rw [ht] at h; cases h
      | ok t =>
        simp only [ht, Except.ok.injEq] at h
        exact ⟨_, q, p, t, h.symm⟩

theorem cleanItemsGo_shape (xs : List PyVal) :
    ∀ ys, Transform.cleanItemsGo xs = Except.ok ys → ∀ y ∈ ys, itemShaped y := by
  induction xs with
  | nil =>
    intro ys h y hy
    simp only [Transform.cleanItemsGo, Except.ok.injEq] at h
    rw [← h] at hy
    cases hy
  | cons x rest ih =>
    intro ys h y hy
    cases x with
    | dict kvs =>
      simp only [Transform.cleanItemsGo] at h
      cases hc : Transform.clean_item kvs with
      | error e => rw [hc] at h; cases h
      | ok c =>
        simp only [hc] at h
        cases hr : Transform.cleanItemsGo rest with
        | error e => rw [hr] at h; cases h
        | ok cs =>
          simp only [hr, Except.ok.injEq] at h
          rw [← h] at hy
          rcases List.mem_cons.mp hy with rfl | hy2
          · exact clean_item_shape kvs y hc
          · exact ih cs hr y hy2
    | none => exact ih ys h y hy
    | bool b => exact ih ys h y hy
    | int n => exact ih ys h y hy
    | float q => exact ih ys h y hy
    | str s => exact ih ys h y hy
    | list l => exact ih ys h y hy

theorem clean_line_items_shape (v w : PyVal)
    (h : Transform.clean_line_items v = Except.ok w) :
    ∃ li, w = PyVal.list li ∧ ∀ y ∈ li, itemShaped y := by
  cases v with
  | list items =>
    simp only [Transform.clean_line_items] at h
    cases hgo : Transform.cleanItemsGo items with
    | error e => rw [hgo] at h; cases h
    | ok cs =>
      simp only [hgo, Except.ok.injEq] at h
      exact ⟨cs, h.symm, cleanItemsGo_shape items cs hgo⟩
  | none => exact ⟨[], by injection h with h2; exact h2.symm, by simp⟩
  | bool b => exact ⟨[], by injection h with h2; exact h2.symm, by simp⟩
  | int n => exact ⟨[], by injection h with h2; exact h2.symm, by simp⟩
  | float q => exact ⟨[], by injection h with h2; exact h2.symm, by simp⟩
  | str s => exact ⟨[], by injection h with h2; exact h2.symm, by simp⟩
  | dict kvs => exact ⟨[], by injection h with h2; exact h2.symm, by simp⟩

theorem clean_document_shape (kvs : List (String × PyVal)) (out : PyVal)
    (h : Transform.clean_document kvs = Except.ok out) :
    ∃ dk, out = PyVal.dict dk ∧
      dk.map Prod.fst = ["document_id", "name", "description", "line_items"] ∧
      ∃ li, dk.lookup "line_items" = some (PyVal.list li) ∧ ∀ y ∈ li, itemShaped y := by
  simp only [Transform.clean_document] at h
  cases hli : Transform.clean_line_items (Transform.dictGet kvs "line_items"
      (Transform.dictGet kvs "items" (PyVal.list []))) with
  | error e => rw [hli] at h; cases h
  | ok w =>
    simp only [hli, Except.ok.injEq] at h
    obtain ⟨li, rfl, hsh⟩ := clean_line_items_shape _ w hli
    refine ⟨_, h.symm, by simp, li, ?_, hsh⟩
    simp [List.lookup]

/-- C10 (amended).  Whenever normalization succeeds (in particular no
boolean occupies a numeric alias position and every value is a key/value
record), `Transform.transform` returns a mapping with exactly the input's
filenames in order, every value a document dict with exactly the four
canonical fields, and every line item a dict with exactly the four item
fields; the original unconditional claim fails because normalization can
raise instead of returning (see the counterexample). -/
theorem c10_transform_shape :
    ∀ input out : List (String × PyVal), Transform.transform input = Except.ok out →
      out.map Prod.fst = input.map Prod.fst ∧
      ∀ p ∈ out, ∃ dk, p.2 = PyVal.dict dk ∧
        dk.map Prod.fst = ["document_id", "name", "description", "line_items"] ∧
        ∃ li, dk.lookup "line_items" = some (PyVal.list li) ∧ ∀ y ∈ li, itemShaped y := by
  intro input
  induction input with
  | nil =>
    intro out h
    simp only [Transform.transform, Except.ok.injEq] at h
    rw [← h]
    exact ⟨rfl, by simp⟩
  | cons p rest ih =>
    intro out h
    obtain ⟨f, v⟩ := p
    cases v with
    | dict kvs =>
      simp only [Transform.transform] at h
      cases hd : Transform.clean_document kvs with
      | error e => rw [hd] at h; cases h
      | ok d =>
        simp only [hd] at h
        cases hr : Transform.transform rest with
        | error e => rw [hr] at h; cases h
        | ok rest2 =>
          simp only [hr, Except.ok.injEq] at h
          obtain ⟨hkeys, hvals⟩ := ih rest2 hr
          rw [← h]
          constructor
          · simp only [List.map_cons, hkeys]
          · intro p2 hp2
            rcases List.mem_cons.mp hp2 with rfl | hp3
            · exact clean_document_shape kvs d hd
            · exact hvals p2 hp3
    | none => simp [Transform.transform] at h
    | bool b => simp [Transform.transform] at h
    | int n => simp [Transform.transform] at h
    | float q => simp [Transform.transform] at h
    | str s => simp [Transform.transform] at h
    | list l => simp [Transform.transform] at h

/-- C10 counterexample.  An input mapping whose line item holds the
boolean `False` in `quantity` makes `transform` raise instead of
returning a mapping at all, refuting the unconditional claim. -/
theorem c10_counterexample :
    Transform.transform [("a.jpg", PyVal.dict [("line_items",
        PyVal.list [PyVal.dict [("quantity", PyVal.bool false)]])])] =
      Except.error "InvalidOperation" := rfl

/-- Witness instantiating `c10_transform_shape` on a concrete mapping. -/
theorem c10_witness :
    ([("000.jpg", PyVal.dict
        [("document_id", PyVal.str "X"), ("name", PyVal.str "N/A"),
         ("description", PyVal.str "N/A"), ("line_items", PyVal.list [])])].map Prod.fst)
      = ([("000.jpg", PyVal.dict [("id", PyVal.str "X")])].map Prod.fst) :=
  (c10_transform_shape [("000.jpg", PyVal.dict [("id", PyVal.str "X")])] _ rfl).1

/-- Dict indexing `doc['k']` as used by `Load.load` on the transformed
dicts; an absent key raises `KeyError`. -/
def pyIndex (kvs : List (String × PyVal)) (k : String) : Except String PyVal :=
  match kvs.lookup k with
  | some v => .ok v
  | Option.none => .error "KeyError"

/-- Adaptation of a transformed scalar into a VARCHAR/TEXT column value;
the cleaned documents always carry strings in these positions. -/
def asStr : PyVal → Except String String
  | .str s => .ok s
  | _ => .error "TypeAdapt"

/-- Adaptation of a transformed numeric into a DECIMAL column value. -/
def asRat : PyVal → Except String Rat
  | .float q => .ok q
  | .int n => .ok (n : Rat)
  | _ => .error "TypeAdapt"

/-- Typed view of a cleaned line-item dict, as read by the `INSERT INTO
line_items` parameters `item['item']`, `item['quantity']`, ... -/
def lineItemOfPy (v : PyVal) : Except String LineItem :=
  match v with
  | .dict kvs => do
    let it ← pyIndex kvs "item" >>= asStr
    let q ← pyIndex kvs "quantity" >>= asRat
    let p ← pyIndex kvs "unit_price" >>= asRat
    let t ← pyIndex kvs "total" >>= asRat
    Except.ok { item := it, quantity := q, unit_price := p, total := t }
  | _ => Except.error "TypeAdapt"

/-- Typed view of a cleaned document dict, as read by `Load.load` through
`doc['document_id']`, `doc['name']`, `doc['description']`,
`doc['line_items']`. -/
def canonOfPy (v : PyVal) : Except String CanonDoc :=
  match v with
  | .dict kvs => do
    let di ← pyIndex kvs "document_id" >>= asStr
    let nm ← pyIndex kvs "name" >>= asStr
    let ds ← pyIndex kvs "description" >>= asStr
    let liv ← pyIndex kvs "line_items"
    match liv with
    | .list xs => do
      let li ← xs.mapM lineItemOfPy
      Except.ok { document_id := di, name := nm, description := ds, line_items := li }
    | _ => Except.error "TypeAdapt"
  | _ => Except.error "TypeAdapt"

/-- Typed view of the whole transformed batch, in iteration order. -/
def batchOfPy : List (String × PyVal) → Except String (List (String × CanonDoc))
  | [] => .ok []
  | (f, v) :: rest => do
    let d ← canonOfPy v
    let ds ← batchOfPy rest
    Except.ok ((f, d) :: ds)

/-- Embedding of `app.run_etl`'s Extract → Transform → Load sequence for a
batch of input names, over the raw model responses `texts` (the S3 +
generation calls are the abstract external collaborator of §1/§6).  The
report-generation step only reads the final state and is outside the
modelled core. -/
def run_etl (texts : String → String) (images : List String) (db : DB) :
    Except String DB := do
  let extracted ← Extract.extract_text_from_images texts images
  let transformed ← Transform.transform extracted
  let batch ← batchOfPy transformed
  Except.ok (Load.load db batch)

/-- Raw model response for image "000" in the C7 scenario: exactly the
JSON object of the spec's end-to-end scenario. -/
def c7text000 : String :=
  "\x7b\"document_id\":\"INV-1\",\"name\":\"Acme\",\"line_items\":[\x7b\"item\":\"Widget\",\"qty\":\"2\",\"price\":\"10,50\"\x7d]\x7d"

/-- Raw responses of the C7 scenario: "000" yields the JSON document,
"001" fails extraction — its response holds no JSON object, which the
pipeline treats the same as a failed generation for that input (§7). -/
def c7texts : String → String := fun i => if i = "000" then c7text000 else "unreadable image"

set_option maxRecDepth 40000 in
/-- C7.  End-to-end scenario on the batch ["000", "001"] with "001"
failing extraction: the extract stage returns exactly one entry keyed
"000.jpg" (one input skipped), and the pipeline succeeds, ending with
exactly one persisted document ("000.jpg", INV-1, Acme, description
defaulted) whose single line item is (Widget, 2.0, 10.5, 0.0). -/
theorem c7_end_to_end :
    Extract.extract_text_from_images c7texts ["000", "001"] =
      Except.ok [("000.jpg", PyVal.dict
        [("document_id", PyVal.str "INV-1"), ("name", PyVal.str "Acme"),
         ("line_items", PyVal.list [PyVal.dict
           [("item", PyVal.str "Widget"), ("qty", PyVal.str "2"),
            ("price", PyVal.str "10,50")]])])] ∧
    run_etl c7texts ["000", "001"] emptyDB = Except.ok
      { documents := [{ id := 1
                        filename := "000.jpg"
                        document_id := "INV-1"
                        name := "Acme"
                        description := "N/A" }]
        line_items := [{ id := 1
                         document_id := 1
                         item := "Widget"
                         quantity := 2
                         unit_price := 21 / 2
                         total := 0 }]
        docSeq := 2
        itemSeq := 2 } :=
  ⟨by with_unfolding_all rfl, by with_unfolding_all rfl⟩
